import Mathlib

/-!
Verification of the Lamp Catalog Resolution & Retrieval Engine.

This file gives a shallow embedding, in Lean 4, of the parts of the Lamp
(Local Asset Management Program) Go sources that the specification claims
talk about, and proves or refutes each claim against that embedding:

* `internal/config` — template expansion (`expandSources`, `substituteParams`,
  `isExcluded`);
* `internal/core` — the strategy resolver dispatch, the Kiwix OPDS query
  shortening loop (`resolveKiwixFeed`), the token bucket `RateLimiter`, and
  the persisted Gutenberg/Kiwix catalog caches;
* `internal/downloader` — `DownloadFile` / `downloadSingle` /
  `downloadSegment`, `CheckAvailableSpace`, `VerifyFile`;
* `internal/tui` — the preflight logic of `DownloadCmd` and the progress
  draining of `WaitForProgress`.

Effectful Go code is embedded as pure functions over explicit inputs: every
HTTP response, file stat, statfs result or clock reading that the Go code
observes becomes an explicit argument, and every value the Go code sends on
a channel or returns becomes part of the explicit result.  Machine integers
are modelled as `Int` (Go `int`/`int64`), byte strings as `List Nat`.
-/

namespace Lamp

/-! ## Generic helpers (models of Go standard library operations) -/

/-- Model of Go map lookup `m[k]` on an association list with the map's
entries (first binding wins; the lists we build have distinct keys). -/
def lookupA (ps : List (String × String)) (k : String) : Option String :=
  match ps with
  | [] => none
  | (k', v) :: rest => if k' = k then some v else lookupA rest k

/-- Go `src.Params[k]`: a missing key yields the zero value `""`. -/
def getParam (ps : List (String × String)) (k : String) : String :=
  (lookupA ps k).getD ""

/-- Does the list start with the given pattern? (model of a string prefix
test on rune lists). -/
def seqStartsWith : List Char → List Char → Bool
  | _, [] => true
  | [], _ :: _ => false
  | a :: as, b :: bs => a = b && seqStartsWith as bs

/-- Model of Go `strings.Contains` on rune lists. -/
def seqContains : List Char → List Char → Bool
  | [], sub => sub.isEmpty
  | s@(_ :: rest), sub => seqStartsWith s sub || seqContains rest sub

/-- Model of Go `strings.Contains`. -/
def strContains (s sub : String) : Bool :=
  seqContains s.data sub.data

/-- Model of Go `strings.ReplaceAll` on rune lists for a non-empty pattern:
replace every non-overlapping occurrence, scanning left to right.  The
recursion is fuelled by the length of the remaining input (each step
consumes at least one rune, so `s.length` fuel always suffices). -/
def replaceSeq (pat rep : List Char) : Nat → List Char → List Char
  | 0, s => s
  | fuel + 1, s =>
    match s with
    | [] => []
    | c :: rest =>
      if pat ≠ [] ∧ seqStartsWith s pat then
        rep ++ replaceSeq pat rep fuel (s.drop pat.length)
      else
        c :: replaceSeq pat rep fuel rest

/-- Model of Go `strings.ReplaceAll` (the patterns used by the program,
`\x7b\x7bos\x7d\x7d` and friends, are never empty). -/
def strReplaceAll (s pat rep : String) : String :=
  ⟨replaceSeq pat.data rep.data s.data.length s.data⟩

/-- Model of Go `strings.LastIndex(s, sub)` for a single-rune separator:
index of the last occurrence of `c`, if any. -/
def lastIdxOf (c : Char) : List Char → Option Nat
  | [] => none
  | a :: as =>
    match lastIdxOf c as with
    | some i => some (i + 1)
    | none => if a = c then some 0 else none

end Lamp

namespace Lamp

/-! ## `internal/core/ratelimit.go` — the token bucket `RateLimiter`

Go source: `RateLimiter{tokens, maxTokens, refillRate, lastRefill}` with
`NewRateLimiter`, `Wait` and `Update`.  Wall-clock instants and durations
(Go `time.Time` / `time.Duration`) are modelled as `Nat` (nanoseconds on a
monotonic clock), token counts as `Int` (Go `int`).  `Wait` loops (sleep,
refill) until a token is available; each clock reading the loop observes is
an explicit argument, and a `Wait` that never obtains a token within those
readings is `none` (it has not completed). -/

structure RateLimiter where
  tokens : Int
  maxTokens : Int
  refillRate : Nat
  lastRefill : Nat
  deriving Repr, DecidableEq

/-- Go `NewRateLimiter(maxTokens, refillRate)` called at instant `now`. -/
def newRateLimiter (maxTokens : Int) (refillRate : Nat) (now : Nat) : RateLimiter :=
  { tokens := maxTokens, maxTokens := maxTokens, refillRate := refillRate, lastRefill := now }

/-- The refill block at the top of `Wait` (and repeated after each sleep):
`tokensToAdd := int(elapsed / refillRate)`; if positive, add and clamp to
`maxTokens`, and advance `lastRefill`. -/
def refillAt (rl : RateLimiter) (now : Nat) : RateLimiter :=
  let tokensToAdd : Int := Int.ofNat ((now - rl.lastRefill) / rl.refillRate)
  if tokensToAdd > 0 then
    let t := rl.tokens + tokensToAdd
    { rl with tokens := if t > rl.maxTokens then rl.maxTokens else t, lastRefill := now }
  else rl

/-- The final `rl.tokens--` of `Wait`. -/
def consumeToken (rl : RateLimiter) : RateLimiter :=
  { rl with tokens := rl.tokens - 1 }

/-- The `for rl.tokens <= 0` loop of `Wait`: if a token is available consume
it, otherwise sleep and refill at the next observed instant.  `nows` is the
list of clock readings the successive sleeps observe. -/
def waitAux (rl : RateLimiter) : List Nat → Option RateLimiter
  | [] => if rl.tokens > 0 then some (consumeToken rl) else none
  | now :: rest =>
    if rl.tokens > 0 then some (consumeToken rl) else waitAux (refillAt rl now) rest

/-- Go `Wait` entered at instant `now0`, with `laterNows` the instants observed
after each sleep.  `some rl'` models a completed `Wait`. -/
def wait (rl : RateLimiter) (now0 : Nat) (laterNows : List Nat) : Option RateLimiter :=
  waitAux (refillAt rl now0) laterNows

/-- Go `Update(maxTokens, refillRate)`. -/
def update (rl : RateLimiter) (maxTokens : Int) (refillRate : Nat) : RateLimiter :=
  { tokens := if rl.tokens > maxTokens then maxTokens else rl.tokens,
    maxTokens := maxTokens, refillRate := refillRate, lastRefill := rl.lastRefill }

/-- The claimed invariant. -/
def RLInv (rl : RateLimiter) : Prop :=
  0 ≤ rl.tokens ∧ rl.tokens ≤ rl.maxTokens

theorem refillAt_inv (rl : RateLimiter) (now : Nat) (h : RLInv rl) :
    RLInv (refillAt rl now) := by
  obtain ⟨h0, h1⟩ := h
  unfold refillAt
  by_cases hc : (Int.ofNat ((now - rl.lastRefill) / rl.refillRate)) > 0
  · simp only [hc, if_true]
    constructor
    · by_cases hm : rl.tokens + Int.ofNat ((now - rl.lastRefill) / rl.refillRate) > rl.maxTokens
      · simp only [hm, if_true]; omega
      · simp only [hm, if_false]; omega
    · by_cases hm : rl.tokens + Int.ofNat ((now - rl.lastRefill) / rl.refillRate) > rl.maxTokens
      · simp only [hm, if_true]; omega
      · simp only [hm, if_false]; omega
  · simp only [hc, if_false]; exact ⟨h0, h1⟩

theorem waitAux_inv (nows : List Nat) (rl rl' : RateLimiter) (h : RLInv rl)
    (hw : waitAux rl nows = some rl') :
    RLInv rl' ∧ ∃ p : RateLimiter, RLInv p ∧ 0 < p.tokens ∧ rl' = consumeToken p := by
  induction nows generalizing rl with
  | nil =>
    unfold waitAux at hw
    by_cases hc : rl.tokens > 0
    · simp only [hc, if_true, Option.some.injEq] at hw
      subst hw
      refine ⟨⟨?_, ?_⟩, rl, h, hc, rfl⟩
      · simp [consumeToken]; omega
      · simp [consumeToken]; obtain ⟨_, h1⟩ := h; omega
    · simp [hc] at hw
  | cons now rest ih =>
    unfold waitAux at hw
    by_cases hc : rl.tokens > 0
    · simp only [hc, if_true, Option.some.injEq] at hw
      subst hw
      refine ⟨⟨?_, ?_⟩, rl, h, hc, rfl⟩
      · simp [consumeToken]; omega
      · simp [consumeToken]; obtain ⟨_, h1⟩ := h; omega
    · simp only [hc, if_false] at hw
      exact ih (refillAt rl now) (refillAt_inv rl now h) hw

end Lamp

namespace Lamp

/-- C10: after `NewRateLimiter` (with the non-negative capacities the
program uses: 5 and the `ApiBurst >= 1` forced by config defaulting), after
every completed `Wait`, and after every `Update` to a non-negative capacity,
the token count satisfies `0 <= tokens <= maxTokens`; and each completed
`Wait` consumes exactly one token: the resulting state is `consumeToken p`
of the state `p` it held just before the decrement, with `p.tokens > 0`. -/
theorem ratelimiter_invariant
    (m : Int) (r now : Nat) (hm : 0 ≤ m)
    (rl rlW rlU : RateLimiter) (hrl : RLInv rl)
    (now0 : Nat) (nows : List Nat) (hw : wait rl now0 nows = some rlW)
    (m' : Int) (r' : Nat) (hm' : 0 ≤ m') (hU : rlU = update rl m' r') :
    RLInv (newRateLimiter m r now) ∧
    (RLInv rlW ∧ ∃ p : RateLimiter, 0 < p.tokens ∧ rlW = consumeToken p ∧
      rlW.tokens = p.tokens - 1) ∧
    RLInv rlU := by
  refine ⟨⟨hm, le_refl m⟩, ?_, ?_⟩
  · obtain ⟨hinv, p, hp, hpt, hc⟩ :=
      waitAux_inv nows (refillAt rl now0) rlW (refillAt_inv rl now0 hrl) hw
    exact ⟨hinv, p, hpt, hc, by simp [hc, consumeToken]⟩
  · subst hU
    obtain ⟨h0, h1⟩ := hrl
    unfold update RLInv
    by_cases hc : rl.tokens > m'
    · simp only [hc, if_true]; exact ⟨hm', le_refl m'⟩
    · simp only [hc, if_false]; constructor
      · exact h0
      · simpa using le_of_not_lt hc

/-- Witness for C10 at concrete inputs: the limiter created by
`NewRateLimiter(5, 1s)` at instant 0, a `Wait` completing immediately at
instant 0, and an `Update(3, 2s)`. -/
theorem ratelimiter_invariant_witness :
    RLInv (newRateLimiter 5 1000000000 0) ∧
    (RLInv ⟨4, 5, 1000000000, 0⟩ ∧ ∃ p : RateLimiter, 0 < p.tokens ∧
      (⟨4, 5, 1000000000, 0⟩ : RateLimiter) = consumeToken p ∧
      (4 : Int) = p.tokens - 1) ∧
    RLInv (update (newRateLimiter 5 1000000000 0) 3 2000000000) := by
  have h := ratelimiter_invariant 5 1000000000 0 (by decide)
    (newRateLimiter 5 1000000000 0) ⟨4, 5, 1000000000, 0⟩
    (update (newRateLimiter 5 1000000000 0) 3 2000000000)
    (by constructor <;> decide) 0 [] (by decide) 3 2000000000 (by decide) rfl
  exact h

end Lamp

namespace Lamp

/-! ## `internal/core/gutenberg.go` and `internal/core/utils.go` — the two
persisted bulk-catalog caches

`loadCache`/`saveCache` (Gutenberg) and `loadKiwixCache`/`saveKiwixCache`
(Kiwix).  File contents, clock readings and payloads are explicit.  Cache
timestamps and `time.Since` results are in nanoseconds (`Nat`, on the
assumption `now >= timestamp`; a negative `time.Since` in Go is never
`> TTL` and truncated `Nat` subtraction agrees). -/

/-- Go `cacheTTL = 24 * time.Hour` (both files), in nanoseconds. -/
def cacheTTL : Nat := 24 * 3600 * 1000000000

/-- The on-disk `gutenbergCache` struct: `{timestamp, books}` — note that it
records no language or category. Books are modelled by their ids. -/
structure GutenbergCacheFile where
  timestamp : Nat
  books : List Nat
  deriving Repr, DecidableEq

/-- Go `saveCache(books)` at instant `now`: the file is replaced whole. -/
def saveGutenbergCache (books : List Nat) (now : Nat) : GutenbergCacheFile :=
  { timestamp := now, books := books }

/-- Go `loadCache(limit)` at instant `now` on parsed file contents `cache`
(`none` models an unreadable/unparsable file): reject on TTL expiry or too
few books, else return the first `limit` books. -/
def gutendexLoadCache (cache : Option GutenbergCacheFile) (now : Nat) (limit : Nat) :
    Option (List Nat) :=
  match cache with
  | none => none
  | some c =>
    if now - c.timestamp > cacheTTL then none
    else if c.books.length < limit then none
    else some (c.books.take limit)

/-- The cache-consultation step of `FetchTopBooks(language, limit)`: it
calls `loadCache(limit)` — the `language` argument is not passed. -/
def fetchTopBooksCache (language : String) (cache : Option GutenbergCacheFile)
    (now : Nat) (limit : Nat) : Option (List Nat) :=
  gutendexLoadCache cache now limit

/-- The on-disk `kiwixCache` struct: `{timestamp, entries, language, category}`.
Entries are modelled by their ids. -/
structure KiwixCacheFile where
  timestamp : Nat
  entries : List Nat
  language : String
  category : String
  deriving Repr, DecidableEq

/-- Go `saveKiwixCache(entries, language, category)` at instant `now`. -/
def saveKiwixCache (entries : List Nat) (language category : String) (now : Nat) :
    KiwixCacheFile :=
  { timestamp := now, entries := entries, language := language, category := category }

/-- Go `loadKiwixCache(language, category, limit)` at instant `now`: reject on
TTL expiry, filter-key mismatch, or too few entries. -/
def loadKiwixCache (cache : Option KiwixCacheFile) (now : Nat)
    (language category : String) (limit : Nat) : Option (List Nat) :=
  match cache with
  | none => none
  | some c =>
    if now - c.timestamp > cacheTTL then none
    else if c.language ≠ language ∨ c.category ≠ category then none
    else if c.entries.length < limit then none
    else some (c.entries.take limit)

/-- The reuse condition the claim states, in the spec's words: fresh
timestamp and matching filter key. -/
def specCacheReusable (cachedKey requestKey : String) (ts now : Nat) : Bool :=
  decide (now - ts ≤ cacheTTL) && (cachedKey == requestKey)

end Lamp

namespace Lamp

/-- C7 counterexample: the Gutenberg bulk-catalog cache is reused across a
filter-key change.  A snapshot created by `saveCache` during a fetch with
language "en" at instant 0 records no filter key, and a `FetchTopBooks`
call with language "fr" at the same instant reuses it — while the claim, in
the spec's words, requires reuse only when the filter key matches
("en" vs "fr" fails that test). -/
theorem gutenberg_cache_ignores_filter_key :
    fetchTopBooksCache "fr" (some (saveGutenbergCache [1, 2, 3] 0)) 0 3 = some [1, 2, 3] ∧
    fetchTopBooksCache "en" (some (saveGutenbergCache [1, 2, 3] 0)) 0 3 = some [1, 2, 3] ∧
    specCacheReusable "en" "fr" 0 0 = false := by
  refine ⟨?_, ?_, ?_⟩ <;> decide

/-- C7 as amended: the Kiwix bulk-catalog cache is reused exactly when its
timestamp is within the 24h TTL, its recorded language and category equal
the request's, and it holds at least `limit` entries; the Gutenberg cache
records no filter key and is reused exactly when its timestamp is within
the TTL and it holds at least `limit` books, regardless of the request
language.  Both caches are fully overwritten on refresh. -/
theorem catalog_cache_reuse_conditions
    (kc : KiwixCacheFile) (gc : GutenbergCacheFile) (now : Nat)
    (language category lang2 : String) (limit : Nat) :
    ((loadKiwixCache (some kc) now language category limit).isSome ↔
      (now - kc.timestamp ≤ cacheTTL ∧ kc.language = language ∧
        kc.category = category ∧ limit ≤ kc.entries.length)) ∧
    ((gutendexLoadCache (some gc) now limit).isSome ↔
      (now - gc.timestamp ≤ cacheTTL ∧ limit ≤ gc.books.length)) ∧
    fetchTopBooksCache language (some gc) now limit =
      fetchTopBooksCache lang2 (some gc) now limit ∧
    (saveKiwixCache kc.entries language category now =
      { timestamp := now, entries := kc.entries, language := language, category := category } ∧
     saveGutenbergCache gc.books now = { timestamp := now, books := gc.books }) := by
  refine ⟨?_, ?_, rfl, rfl, rfl⟩
  · unfold loadKiwixCache
    by_cases h1 : now - kc.timestamp > cacheTTL
    · simp only [h1, if_true]
      simp only [Option.isSome_none, Bool.false_eq_true, false_iff]
      intro ⟨h, _⟩; omega
    · simp only [h1, if_false]
      by_cases h2 : kc.language ≠ language ∨ kc.category ≠ category
      · simp only [h2, if_true]
        simp only [Option.isSome_none, Bool.false_eq_true, false_iff]
        intro ⟨_, hl, hc, _⟩
        rcases h2 with h2 | h2 <;> exact h2 (by simp [hl, hc])
      · simp only [h2, if_false]
        push_neg at h2
        by_cases h3 : kc.entries.length < limit
        · simp only [h3, if_true]
          simp only [Option.isSome_none, Bool.false_eq_true, false_iff]
          intro ⟨_, _, _, h⟩; omega
        · simp only [h3, if_false, Option.isSome_some, true_iff]
          exact ⟨by omega, h2.1, h2.2, by omega⟩
  · unfold gutendexLoadCache
    by_cases h1 : now - gc.timestamp > cacheTTL
    · simp only [h1, if_true]
      simp only [Option.isSome_none, Bool.false_eq_true, false_iff]
      intro ⟨h, _⟩; omega
    · simp only [h1, if_false]
      by_cases h3 : gc.books.length < limit
      · simp only [h3, if_true]
        simp only [Option.isSome_none, Bool.false_eq_true, false_iff]
        intro ⟨_, h⟩; omega
      · simp only [h3, if_false, Option.isSome_some, true_iff]
        exact ⟨by omega, by omega⟩

end Lamp

namespace Lamp

/-! ## `internal/downloader` (current revision, 4-argument `DownloadFile`)
and the `DownloadCmd` preflight of `internal/tui/model.go`

The `Progress` struct (only the fields the engine sets on the transfer
path). `error` is `none` for Go `nil`. -/

structure Progress where
  total : Int
  downloaded : Int
  error : Option String
  deriving Repr, DecidableEq

/-- A progress value as built at either of the two channel-send sites of the
current `DownloadFile`/`downloadSingle`/`downloadSegment`: both send
`Progress{Total: ..., Downloaded: ...}` with the `Error` field left at its
zero value `nil`. -/
def transferProgress (total downloaded : Int) : Progress :=
  { total := total, downloaded := downloaded, error := none }

/-- Go `CheckAvailableSpace(path, requiredBytes)` with the statfs-reported
available byte count made explicit: returns `(availableBytes >= requiredBytes,
availableBytes)`. -/
def checkAvailableSpace (availableBytes requiredBytes : Int) : Bool × Int :=
  (availableBytes ≥ requiredBytes, availableBytes)

/-- Outcome of the space-preflight section of `DownloadCmd`. -/
inductive PreflightOutcome where
  | proceed
  | abortInsufficientSpace (reportedAvail : Int)
  deriving Repr, DecidableEq

/-- The preflight section of `DownloadCmd` (model.go): emit the
"checking space" marker `Progress{Downloaded: 0, Total: -1}`; HEAD the URL
(`headSize = none` models a failed HEAD — "not fatal, we'll try to download
anyway"); when a positive content length is reported, consult
`CheckAvailableSpace` (`statfsAvail = none` models its error return, also
non-fatal); on insufficient space emit `Progress{Downloaded: -1, Total:
avail}`, close the stream and abort with no call to `DownloadFile`;
otherwise emit the "space OK" marker and proceed. -/
def downloadCmdPreflight (headSize : Option Int) (statfsAvail : Option Int) :
    PreflightOutcome × List Progress :=
  let checking := transferProgress (-1) 0
  match headSize with
  | none => (.proceed, [checking])
  | some size =>
    if size > 0 then
      match statfsAvail with
      | none => (.proceed, [checking])
      | some avail =>
        let (ok, av) := checkAvailableSpace avail size
        if !ok then (.abortInsufficientSpace av, [checking, transferProgress av (-1)])
        else (.proceed, [checking, transferProgress (-1) 1])
    else (.proceed, [checking])

/-- Whether the preflight outcome lets `DownloadFile` run (the only code
that creates or truncates the destination file; `CheckAvailableSpace` itself
only creates the parent directory). -/
def preflightInvokesDownload : PreflightOutcome → Bool
  | .proceed => true
  | .abortInsufficientSpace _ => false

/-- C6 counterexample: with an advertised content length of 100 bytes and
40 bytes free, the abort report carries the available byte count 40 (the
TUI renders it as "Not enough space (40 B available)"), not the shortfall
60 — the claim's "reporting ... the shortfall" does not hold. -/
theorem preflight_reports_avail_not_shortfall :
    (downloadCmdPreflight (some 100) (some 40)).1 = .abortInsufficientSpace 40 ∧
    (100 - 40 : Int) = 60 ∧ (40 : Int) ≠ 60 := by
  refine ⟨?_, rfl, ?_⟩ <;> decide

/-- C6 as amended: for every download whose preflight HEAD reports a
content length greater than the free space the space check observed, the
transfer aborts with the insufficient-space progress marker carrying the
available byte count, `DownloadFile` is never invoked (so the destination
file is neither created nor truncated), and the insufficient-space marker
is the last value on the stream before it closes. -/
theorem preflight_insufficient_space_aborts
    (size avail : Int) (hpos : 0 < size) (hlt : avail < size) :
    downloadCmdPreflight (some size) (some avail) =
      (.abortInsufficientSpace avail,
        [transferProgress (-1) 0, transferProgress avail (-1)]) ∧
    preflightInvokesDownload (downloadCmdPreflight (some size) (some avail)).1 = false := by
  have hok : (avail ≥ size) = False := by simp; omega
  constructor
  · unfold downloadCmdPreflight checkAvailableSpace
    simp only [hpos, if_true, decide_eq_true_eq]
    simp [hok]
  · unfold downloadCmdPreflight checkAvailableSpace
    simp only [hpos, if_true, decide_eq_true_eq]
    simp [hok, preflightInvokesDownload]

/-- Witness for C6 (amended) at content length 100 and 40 free bytes. -/
theorem preflight_insufficient_space_aborts_witness :
    downloadCmdPreflight (some 100) (some 40) =
      (.abortInsufficientSpace 40,
        [transferProgress (-1) 0, transferProgress 40 (-1)]) ∧
    preflightInvokesDownload (downloadCmdPreflight (some 100) (some 40)).1 = false :=
  preflight_insufficient_space_aborts 100 40 (by decide) (by decide)

end Lamp

namespace Lamp

/-! ### The current `DownloadFile` (4-argument form, the one `DownloadCmd`
and `DownloadCmdBatch` call)

`downloadSingle` / `downloadSegment` observe: the HEAD response (content
length and `Accept-Ranges`), one GET response per path, the chunk sizes the
successive `resp.Body.Read`/`io.Copy` steps deliver, and an optional read
error after them.  Channel sends are non-blocking (`select`/`default`), so
the event lists below are the values offered to the stream. -/

/-- The HEAD response `DownloadFile` inspects. -/
structure HeadInfo where
  contentLength : Int
  acceptRanges : Bool
  deriving Repr, DecidableEq

/-- One segment worker's observations: GET status, delivered chunk sizes,
and an optional read error after them. -/
structure SegmentRun where
  status : Nat
  chunks : List Nat
  readErr : Option String
  deriving Repr, DecidableEq

/-- How `downloadSingle` opens the destination (`os.Create`: create or
truncate) versus the resuming append of the legacy single-stream engine. -/
inductive OpenMode where
  | createTruncate
  | appendExisting
  deriving Repr, DecidableEq

/-- The request headers `downloadSingle` sets: only a User-Agent — it never
stats the destination and never sends a `Range` header. -/
def downloadSingleRequestHeaders : List (String × String) :=
  [("User-Agent", "tui-dl/1.0")]

/-- Go `downloadSingle` always opens the destination with `os.Create`. -/
def downloadSingleOpenMode : OpenMode :=
  .createTruncate

/-- The progress values the `ProgressWriter` of `downloadSingle` offers:
one per delivered chunk, with the running byte count (starting from 0). -/
def progressWriterEvents (total : Int) (downloaded : Int) : List Nat → List Progress
  | [] => []
  | n :: rest =>
    transferProgress total (downloaded + Int.ofNat n) ::
      progressWriterEvents total (downloaded + Int.ofNat n) rest

/-- Go `downloadSingle(url, dest, progressChan)`: plain GET; any status other
than 200 is an error; otherwise copy through the progress writer.  Returns
(offered events, returned error). -/
def downloadSingle (get : Except String (Nat × Int)) (chunks : List Nat)
    (copyErr : Option String) : List Progress × Option String :=
  match get with
  | .error e => ([], some e)
  | .ok (status, contentLength) =>
    if status ≠ 200 then ([], some ("HTTP " ++ toString status))
    else (progressWriterEvents contentLength 0 chunks, copyErr)

/-- One `downloadSegment` worker: status must be 206 or 200; each chunk
adds to the shared atomic counter and offers a progress value carrying the
aggregate count. -/
def segmentEvents (totalSize : Int) (counter : Int) : List Nat → List Progress × Int
  | [] => ([], counter)
  | n :: rest =>
    let c := counter + Int.ofNat n
    let (evs, c') := segmentEvents totalSize c rest
    (transferProgress totalSize c :: evs, c')

/-- A `downloadSegment` run against the shared counter: returns the offered
events, the new counter, and the worker's returned error. -/
def runSegment (totalSize : Int) (counter : Int) (seg : SegmentRun) :
    List Progress × Int × Option String :=
  if seg.status ≠ 206 ∧ seg.status ≠ 200 then
    ([], counter, some ("segment HTTP " ++ toString seg.status))
  else
    let (evs, c') := segmentEvents totalSize counter seg.chunks
    (evs, c', seg.readErr)

/-- All segment workers, serialised in index order (one possible
interleaving of the concurrent workers; the properties proved below do not
depend on the interleaving).  `sync.Once` keeps the first error. -/
def runSegments (totalSize : Int) (counter : Int) : List SegmentRun → List Progress × Option String
  | [] => ([], none)
  | seg :: rest =>
    let (evs, c', err) := runSegment totalSize counter seg
    let (evs', firstErr) := runSegments totalSize c' rest
    (evs ++ evs', match err with | some e => some e | none => firstErr)

/-- Go `DownloadFile(url, dest, threads, progressChan)` of the current engine:
empty-URL check, HEAD, then either the single-stream fallback (no range
support, unknown/small size, or `threads <= 1`) or the segmented path
(truncate to full size, run the workers, return the first worker error).
Result: (events offered to the progress stream before it closes, returned
error).  No branch offers a `Progress` whose `Error` field is set. -/
def downloadFile (url : String) (threads : Int) (head : Except String HeadInfo)
    (get : Except String (Nat × Int)) (chunks : List Nat) (copyErr : Option String)
    (segs : List SegmentRun) : List Progress × Option String :=
  if url = "" then ([], some "empty download URL")
  else
    match head with
    | .error e => ([], some ("HEAD request failed: " ++ e))
    | .ok info =>
      if !info.acceptRanges ∨ info.contentLength ≤ 0 ∨ threads ≤ 1 ∨
          info.contentLength < 1048576 then
        downloadSingle get chunks copyErr
      else
        runSegments info.contentLength 0 segs

/-- Go `WaitForProgress` (model.go) drained to the end of the stream: the
first progress value carrying an error is returned as the download's error;
if the stream closes first, the download is reported as succeeded
(`DownloadMsg{Err: nil}`). -/
def tuiDrainErr : List Progress → Option String
  | [] => none
  | p :: rest =>
    match p.error with
    | some e => some e
    | none => tuiDrainErr rest

end Lamp

namespace Lamp

theorem progressWriterEvents_no_error (total : Int) (chunks : List Nat) (d : Int) :
    (progressWriterEvents total d chunks).all (fun p => p.error == none) = true := by
  induction chunks generalizing d with
  | nil => rfl
  | cons n rest ih =>
    simp only [progressWriterEvents, List.all_cons, Bool.and_eq_true]
    exact ⟨rfl, ih _⟩

theorem segmentEvents_no_error (total : Int) (chunks : List Nat) (c : Int) :
    (segmentEvents total c chunks).1.all (fun p => p.error == none) = true := by
  induction chunks generalizing c with
  | nil => rfl
  | cons n rest ih =>
    simp only [segmentEvents, List.all_cons, Bool.and_eq_true]
    exact ⟨rfl, ih _⟩

theorem runSegments_no_error (total : Int) (segs : List SegmentRun) (c : Int) :
    (runSegments total c segs).1.all (fun p => p.error == none) = true := by
  induction segs generalizing c with
  | nil => rfl
  | cons seg rest ih =>
    simp only [runSegments, runSegment]
    by_cases hs : seg.status ≠ 206 ∧ seg.status ≠ 200
    · rw [if_pos hs]
      simpa using ih c
    · rw [if_neg hs]
      simp only [List.all_append, Bool.and_eq_true]
      exact ⟨segmentEvents_no_error total seg.chunks c, ih _⟩

/-- C5: the current transfer engine never delivers a terminal error value on
the progress stream — every progress value any path of `DownloadFile`
offers has a nil `Error` field (failures are only returned, and `DownloadCmd`
discards that return value) — and at the failing input of a download whose
HEAD request fails, the stream closes with no event at all while
`DownloadFile` returns the error, so the TUI's `WaitForProgress` drain
reports the failed download as completed without error. -/
theorem downloadFile_no_error_on_stream :
    (∀ (url : String) (threads : Int) (head : Except String HeadInfo)
      (get : Except String (Nat × Int)) (chunks : List Nat) (copyErr : Option String)
      (segs : List SegmentRun),
      (downloadFile url threads head get chunks copyErr segs).1.all
        (fun p => p.error == none) = true) ∧
    downloadFile "https://example.com/f.iso" 4 (.error "connection refused")
        (.ok (200, 0)) [] none [] =
      ([], some "HEAD request failed: connection refused") ∧
    tuiDrainErr
      (downloadFile "https://example.com/f.iso" 4 (.error "connection refused")
        (.ok (200, 0)) [] none []).1 = none := by
  refine ⟨?_, by decide, by decide⟩
  intro url threads head get chunks copyErr segs
  unfold downloadFile
  by_cases hu : url = ""
  · subst hu; rfl
  · simp only [hu, if_false]
    match head with
    | .error e => rfl
    | .ok info =>
      by_cases hb : !info.acceptRanges ∨ info.contentLength ≤ 0 ∨ threads ≤ 1 ∨
          info.contentLength < 1048576
      · simp only [hb, if_true]
        unfold downloadSingle
        match get with
        | .error e => rfl
        | .ok (status, cl) =>
          by_cases hst : status ≠ 200
          · simp [hst]
          · simp only [hst, if_false]
            exact progressWriterEvents_no_error cl chunks 0
      · simp only [hb, if_false]
        exact runSegments_no_error info.contentLength segs 0

/-- C2: the single-stream path of the current engine does not resume: its
GET request carries only a User-Agent header (no `Range`, whatever partial
file exists — the code never stats the destination), it opens the
destination with `os.Create` (truncating any partial file), and a
single-stream run (here: `threads = 1`, a 3 MB resource, one 1000-byte
chunk delivered) restarts the byte count from zero. -/
theorem downloadSingle_never_resumes :
    lookupA downloadSingleRequestHeaders "Range" = none ∧
    downloadSingleOpenMode = .createTruncate ∧
    downloadFile "https://example.com/f" 1 (.ok ⟨3000000, true⟩)
        (.ok (200, 3000000)) [1000] none [] =
      ([transferProgress 3000000 1000], none) := by
  refine ⟨by decide, rfl, by decide⟩

end Lamp

namespace Lamp

/-! ## `internal/core/checker.go` — `resolveKiwixFeed`: the OPDS query
shortening loop

The loop body observes one catalog response per query (`oracle`); a
response is either a parsed feed with an entry count or a failure (network
error or XML decode error, both of which the Go loop returns immediately).
The Go `for {}` loop is unbounded, so it is embedded with explicit fuel:
`none` means the loop has not finished within `fuel` iterations. -/

/-- One catalog response as the loop sees it. -/
inductive FeedResp where
  | entries (n : Nat)
  | failure (msg : String)
  deriving Repr, DecidableEq

/-- Outcome of the search loop: a query with entries, exhaustion (zero hits
and no underscore left to strip — the Go code then returns the
"No entry found for series" error), or a request/parse failure. -/
inductive KiwixLoopResult where
  | found (finalQuery : List Char) (numEntries : Nat)
  | notFound (finalQuery : List Char)
  | failed (msg : String)
  deriving Repr, DecidableEq

/-- The search loop of `resolveKiwixFeed` (and, identically, of the legacy
`checkKiwixVersion`): query; stop on failure or on a non-empty feed;
otherwise strip from the last underscore (`searchQuery =
searchQuery[:lastUnderscore]`) and retry; stop when no underscore remains. -/
def resolveKiwixLoop (oracle : List Char → FeedResp) : Nat → List Char → Option KiwixLoopResult
  | 0, _ => none
  | fuel + 1, q =>
    match oracle q with
    | .failure m => some (.failed m)
    | .entries n =>
      if 0 < n then some (.found q n)
      else
        match lastIdxOf '_' q with
        | none => some (.notFound q)
        | some i => resolveKiwixLoop oracle fuel (q.take i)

theorem lastIdxOf_none_count {c : Char} {q : List Char} (h : lastIdxOf c q = none) :
    q.count c = 0 := by
  induction q with
  | nil => rfl
  | cons a as ih =>
    unfold lastIdxOf at h
    match hm : lastIdxOf c as with
    | some i => rw [hm] at h; exact absurd h (by simp)
    | none =>
      rw [hm] at h
      by_cases ha : a = c
      · simp [ha] at h
      · simp only [List.count_cons, ih hm]
        simp [ha]

theorem lastIdxOf_some_count {c : Char} {q : List Char} {i : Nat}
    (h : lastIdxOf c q = some i) :
    i < q.length ∧ (q.take i).count c + 1 = q.count c := by
  induction q generalizing i with
  | nil => exact absurd h (by simp [lastIdxOf])
  | cons a as ih =>
    unfold lastIdxOf at h
    match hm : lastIdxOf c as with
    | some j =>
      rw [hm] at h
      simp only [Option.some.injEq] at h
      subst h
      obtain ⟨hlt, hcount⟩ := ih hm
      constructor
      · simpa using Nat.succ_lt_succ hlt
      · simp only [List.take_succ_cons, List.count_cons]
        omega
    | none =>
      rw [hm] at h
      by_cases ha : a = c
      · simp only [ha, if_true, Option.some.injEq] at h
        subst h
        simp only [List.take_zero, List.count_nil, List.count_cons,
          lastIdxOf_none_count hm]
        constructor
        · simp
        · simp [ha]
      · simp [ha] at h

theorem resolveKiwixLoop_total (oracle : List Char → FeedResp) (fuel : Nat)
    (q : List Char) (hfuel : q.count '_' < fuel) :
    (resolveKiwixLoop oracle fuel q).isSome = true := by
  induction fuel generalizing q with
  | zero => omega
  | succ f ih =>
    unfold resolveKiwixLoop
    match horacle : oracle q with
    | .failure m => rfl
    | .entries n =>
      by_cases hn : 0 < n
      · simp [hn]
      · simp only [hn, if_false]
        match hli : lastIdxOf '_' q with
        | none => rfl
        | some i =>
          obtain ⟨hlt, hcount⟩ := lastIdxOf_some_count hli
          exact ih (q.take i) (by omega)

theorem resolveKiwixLoop_spec (oracle : List Char → FeedResp) (fuel : Nat)
    (q : List Char) (r : KiwixLoopResult)
    (h : resolveKiwixLoop oracle fuel q = some r) :
    (∀ qf n, r = .found qf n → 0 < n ∧ oracle qf = .entries n ∧ qf <+: q) ∧
    (∀ qf, r = .notFound qf →
      oracle qf = .entries 0 ∧ lastIdxOf '_' qf = none ∧ qf <+: q) := by
  induction fuel generalizing q with
  | zero => exact absurd h (by simp [resolveKiwixLoop])
  | succ f ih =>
    unfold resolveKiwixLoop at h
    match horacle : oracle q with
    | .failure m =>
      rw [horacle] at h
      dsimp only at h
      simp only [Option.some.injEq] at h
      subst h
      constructor
      · intro qf n hr
        cases hr
      · intro qf hr
        cases hr
    | .entries n =>
      rw [horacle] at h
      dsimp only at h
      by_cases hn : 0 < n
      · rw [if_pos hn] at h
        simp only [Option.some.injEq] at h
        subst h
        constructor
        · intro qf m hr
          cases hr
          exact ⟨hn, horacle, List.prefix_refl q⟩
        · intro qf hr
          cases hr
      · rw [if_neg hn] at h
        match hli : lastIdxOf '_' q with
        | none =>
          rw [hli] at h
          simp only [Option.some.injEq] at h
          subst h
          constructor
          · intro qf m hr
            cases hr
          · intro qf hr
            cases hr
            have hn0 : n = 0 := by omega
            subst hn0
            exact ⟨horacle, hli, List.prefix_refl q⟩
        | some i =>
          rw [hli] at h
          obtain ⟨hfound, hnf⟩ := ih (q.take i) h
          have hpre : q.take i <+: q := List.take_prefix i q
          constructor
          · intro qf m hr
            obtain ⟨h1, h2, h3⟩ := hfound qf m hr
            exact ⟨h1, h2, h3.trans hpre⟩
          · intro qf hr
            obtain ⟨h1, h2, h3⟩ := hnf qf hr
            exact ⟨h1, h2, h3.trans hpre⟩

/-- C9: for every catalog oracle and every series query, the Kiwix search
loop terminates within (number of underscores in the query) + 1 iterations,
and its outcome is exactly as claimed: a `found` outcome is a query with a
non-empty result that is a prefix of the original (obtained by stripping
trailing underscore tokens), and a `notFound` outcome is reached only when
a query with zero hits has no underscore-delimited token left to strip. -/
theorem kiwix_search_loop_terminates (oracle : List Char → FeedResp) (q : List Char) :
    ∃ r, resolveKiwixLoop oracle (q.count '_' + 1) q = some r ∧
      (∀ qf n, r = .found qf n → 0 < n ∧ oracle qf = .entries n ∧ qf <+: q) ∧
      (∀ qf, r = .notFound qf →
        oracle qf = .entries 0 ∧ lastIdxOf '_' qf = none ∧ qf <+: q) := by
  have htot := resolveKiwixLoop_total oracle (q.count '_' + 1) q (by omega)
  match hres : resolveKiwixLoop oracle (q.count '_' + 1) q with
  | none => rw [hres] at htot; exact absurd htot (by simp)
  | some r => exact ⟨r, rfl, resolveKiwixLoop_spec oracle _ q r hres⟩

end Lamp

namespace Lamp

/-- A concrete catalog oracle for the witness: zero hits on every query
except `wikipedia`, which has two entries. -/
def kiwixWitnessOracle (q : List Char) : FeedResp :=
  if q = "wikipedia".data then FeedResp.entries 2 else FeedResp.entries 0

/-- Witness for C9 at the concrete series `wikipedia_en_100_mini`. -/
theorem kiwix_search_loop_terminates_witness :
    ∃ r, resolveKiwixLoop kiwixWitnessOracle
        (("wikipedia_en_100_mini".data).count '_' + 1) "wikipedia_en_100_mini".data = some r ∧
      (∀ qf n, r = .found qf n → 0 < n ∧ kiwixWitnessOracle qf = .entries n ∧
        qf <+: "wikipedia_en_100_mini".data) ∧
      (∀ qf, r = .notFound qf → kiwixWitnessOracle qf = .entries 0 ∧
        lastIdxOf '_' qf = none ∧ qf <+: "wikipedia_en_100_mini".data) :=
  kiwix_search_loop_terminates kiwixWitnessOracle "wikipedia_en_100_mini".data

end Lamp

namespace Lamp

/-! ## `internal/config/config.go` — `expandSources`, `substituteParams`,
`isExcluded`

A `Source` value after YAML loading/merging (the `ID`, `Checksum` and
`StandardizeName` fields, unused by expansion and resolution, are
omitted).  Go string-keyed maps are modelled as association lists with
distinct keys; the dedup key uses the substituted parameter list itself,
mirroring `fmt.Sprintf("%v", Params)`, which prints map entries in sorted
key order — for the same key set the serialisations agree exactly when the
maps do, barring values that themselves embed a `" k:"` fragment. -/

structure Source where
  name : String
  params : List (String × String)
  os : String
  arch : String
  exclude : List String
  osMap : List (String × String)
  archMap : List (String × String)
  extMap : List (String × String)
  strategy : String
  url : String
  deriving Repr, DecidableEq

/-- Go `isExcluded(excludeList, osName, archName)`: exact "os/arch" combo,
bare OS, or bare Arch; first match wins. -/
def isExcluded (excludeList : List String) (osName archName : String) : Bool :=
  let combo := osName ++ "/" ++ archName
  excludeList.any (fun ex => ex = combo ∨ ex = osName ∨ ex = archName)

/-- The `usesOS` flag: some parameter value contains a placeholder starting
with os or ext, an OS map is present, or `force_os_display` is "true". -/
def usesOSOf (src : Source) : Bool :=
  src.params.any (fun kv => strContains kv.2 "\x7b\x7bos" || strContains kv.2 "\x7b\x7bext") ||
    !src.osMap.isEmpty || (getParam src.params "force_os_display" == "true")

/-- The `usesArch` flag: some parameter value contains an arch placeholder,
an Arch map is present, or an `arch_override` parameter is set. -/
def usesArchOf (src : Source) : Bool :=
  src.params.any (fun kv => strContains kv.2 "\x7b\x7barch") ||
    !src.archMap.isEmpty || (getParam src.params "arch_override" != "")

/-- One step of the exclude-list pass over (`needsOSIteration`,
`needsArchIteration`): an entry containing "/" forces both flags; a bare
entry adjusts a flag only when neither `usesOS` nor `usesArch` holds,
OS-names going to the OS flag and anything else to the Arch flag. -/
def needsStep (usesOS usesArch : Bool) (acc : Bool × Bool) (ex : String) : Bool × Bool :=
  if strContains ex "/" then (true, true)
  else if !usesArch && !usesOS then
    if ex = "linux" ∨ ex = "macos" ∨ ex = "darwin" ∨ ex = "windows" then
      (true, acc.2)
    else (acc.1, true)
  else acc

/-- The `for _, ex := range src.Exclude` pass computing
(`needsOSIteration`, `needsArchIteration`), starting from
(`usesOS`, `usesArch`). -/
def needsIteration (src : Source) : Bool × Bool :=
  src.exclude.foldl (needsStep (usesOSOf src) (usesArchOf src))
    (usesOSOf src, usesArchOf src)

/-- Go `substituteParams(&newSrc, osName, archName)`: compute the OS
variations, the extension (per-OS default then `ext_map`), the OS-mapped
and Arch-mapped display strings (the latter looked up first by the
"os/arch" composite key, then by bare arch), and substitute all seven
placeholders in every parameter value. -/
def substituteParams (src : Source) (osName archName : String) : List (String × String) :=
  let osShort := if osName = "macos" ∨ osName = "darwin" then "mac"
    else if osName = "windows" then "win" else osName
  let osProper := if osName = "macos" then "macOS"
    else if osName = "windows" then "Windows" else "Linux"
  let extDefault := if osName = "linux" then "zip"
    else if osName = "macos" ∨ osName = "darwin" then "dmg"
    else if osName = "windows" then "zip" else "zip"
  let ext := (lookupA src.extMap osName).getD extDefault
  let mappedOS := if !src.osMap.isEmpty then (lookupA src.osMap osName).getD "" else ""
  let compositeKey := osName ++ "/" ++ archName
  let mappedArch := if !src.archMap.isEmpty then
      match lookupA src.archMap compositeKey with
      | some v => v
      | none => (lookupA src.archMap archName).getD ""
    else ""
  src.params.map (fun kv =>
    (kv.1,
      strReplaceAll (strReplaceAll (strReplaceAll (strReplaceAll (strReplaceAll
        (strReplaceAll (strReplaceAll kv.2
          "\x7b\x7bos\x7d\x7d" osName)
          "\x7b\x7bos_short\x7d\x7d" osShort)
          "\x7b\x7bos_proper\x7d\x7d" osProper)
          "\x7b\x7barch\x7d\x7d" archName)
          "\x7b\x7bext\x7d\x7d" ext)
          "\x7b\x7bos_map\x7d\x7d" mappedOS)
          "\x7b\x7barch_map\x7d\x7d" mappedArch))

/-- The dedup key: `expandedKey{os, arch: effectiveArch, params}`. -/
structure ExpandedKey where
  osName : String
  effArch : String
  paramStr : List (String × String)
  deriving Repr, DecidableEq

/-- The per-pair body of the cartesian-product loop: the concrete source
built for `(osName, archName)` together with its dedup key. -/
def expandEntry (src : Source) (usesOS usesArch : Bool) (osName archName : String) :
    ExpandedKey × Source :=
  let newParams := substituteParams src osName archName
  let override := getParam src.params "arch_override"
  let effectiveArch := if override ≠ "" then override else archName
  let key : ExpandedKey := ⟨osName, effectiveArch, newParams⟩
  let suffixParts :=
    (if usesOS ∧ osName ≠ "" then [osName] else []) ++
    (if usesArch then
      if override ≠ "" then [override]
      else if archName ≠ "" then [archName] else []
     else [])
  let newName := if suffixParts ≠ [] then
      src.name ++ " [" ++ String.intercalate "/" suffixParts ++ "]"
    else src.name
  let newOS := if usesOS then osName else src.os
  let newArch := if usesArch then (if override ≠ "" then override else archName) else src.arch
  (key, { src with name := newName, params := newParams, os := newOS, arch := newArch })

/-- The cartesian-product loop with the `seen` map: skip excluded pairs,
skip pairs whose key was already emitted, emit first occurrences in
iteration order. -/
def expandPairs (src : Source) (usesOS usesArch : Bool) :
    List (String × String) → List ExpandedKey → List (ExpandedKey × Source)
  | [], _ => []
  | (osName, archName) :: rest, seen =>
    if isExcluded src.exclude osName archName then
      expandPairs src usesOS usesArch rest seen
    else
      let ke := expandEntry src usesOS usesArch osName archName
      if ke.1 ∈ seen then expandPairs src usesOS usesArch rest seen
      else ke :: expandPairs src usesOS usesArch rest (ke.1 :: seen)

/-- Go `expandSources` restricted to one source: decide the iteration
dimensions, build the OS×Arch product in iteration order, and run the
dedup loop.  A source needing no iteration is passed through unchanged. -/
def expandSource (cfgOS cfgArch : List String) (src : Source) : List Source :=
  let needs := needsIteration src
  if !needs.1 && !needs.2 then [src]
  else
    let osList := if needs.1 then cfgOS else [""]
    let archList := if needs.2 then cfgArch else [""]
    let pairs := osList.flatMap (fun o => archList.map (fun a => (o, a)))
    (expandPairs src (usesOSOf src) (usesArchOf src) pairs []).map Prod.snd

end Lamp

namespace Lamp

theorem needsStep_mono1 (u a : Bool) (acc : Bool × Bool) (ex : String)
    (h : acc.1 = true) : (needsStep u a acc ex).1 = true := by
  unfold needsStep
  split
  · rfl
  · split
    · split
      · rfl
      · exact h
    · exact h

theorem needsStep_mono2 (u a : Bool) (acc : Bool × Bool) (ex : String)
    (h : acc.2 = true) : (needsStep u a acc ex).2 = true := by
  unfold needsStep
  split
  · rfl
  · split
    · split
      · exact h
      · rfl
    · exact h

theorem needsFold_mono (u a : Bool) (l : List String) :
    ∀ acc : Bool × Bool,
      (acc.1 = true → (l.foldl (needsStep u a) acc).1 = true) ∧
      (acc.2 = true → (l.foldl (needsStep u a) acc).2 = true) := by
  induction l with
  | nil => exact fun acc => ⟨fun h => h, fun h => h⟩
  | cons ex rest ih =>
    intro acc
    simp only [List.foldl_cons]
    constructor
    · intro h
      exact (ih (needsStep u a acc ex)).1 (needsStep_mono1 u a acc ex h)
    · intro h
      exact (ih (needsStep u a acc ex)).2 (needsStep_mono2 u a acc ex h)

theorem needsFold_slash (u a : Bool) (l : List String) :
    ∀ (acc : Bool × Bool) (ex : String), ex ∈ l → strContains ex "/" = true →
      (l.foldl (needsStep u a) acc).1 = true ∧
      (l.foldl (needsStep u a) acc).2 = true := by
  induction l with
  | nil => intro acc ex hmem; cases hmem
  | cons e rest ih =>
    intro acc ex hmem hsl
    simp only [List.foldl_cons]
    rcases List.mem_cons.mp hmem with he | he
    · subst he
      have hstep : needsStep u a acc ex = (true, true) := by
        unfold needsStep; simp [hsl]
      rw [hstep]
      exact ⟨(needsFold_mono u a rest (true, true)).1 rfl,
             (needsFold_mono u a rest (true, true)).2 rfl⟩
    · exact ih (needsStep u a acc e) ex he hsl

theorem needsFold_bare (l : List String) :
    ∀ (acc : Bool × Bool) (ex : String), ex ∈ l →
      ¬strContains ex "/" = true →
      ((ex = "linux" ∨ ex = "macos" ∨ ex = "darwin" ∨ ex = "windows") →
        (l.foldl (needsStep false false) acc).1 = true) ∧
      (¬(ex = "linux" ∨ ex = "macos" ∨ ex = "darwin" ∨ ex = "windows") →
        (l.foldl (needsStep false false) acc).2 = true) := by
  induction l with
  | nil => intro acc ex hmem; cases hmem
  | cons e rest ih =>
    intro acc ex hmem hsl
    simp only [List.foldl_cons]
    rcases List.mem_cons.mp hmem with he | he
    · subst he
      constructor
      · intro hos
        have hstep : (needsStep false false acc ex).1 = true := by
          unfold needsStep; simp [hsl, hos]
        exact (needsFold_mono false false rest _).1 hstep
      · intro hos
        have hstep : (needsStep false false acc ex).2 = true := by
          unfold needsStep; simp [hsl, hos]
        exact (needsFold_mono false false rest _).2 hstep
    · exact ih (needsStep false false acc e) ex he hsl

theorem expandPairs_skips_excluded (src : Source) (u1 u2 : Bool)
    (pairs : List (String × String)) :
    ∀ seen : List ExpandedKey,
      expandPairs src u1 u2 pairs seen =
        expandPairs src u1 u2
          (pairs.filter (fun p => !isExcluded src.exclude p.1 p.2)) seen := by
  induction pairs with
  | nil => intro seen; rfl
  | cons p rest ih =>
    intro seen
    obtain ⟨o, a⟩ := p
    by_cases hex : isExcluded src.exclude o a = true
    · simp only [expandPairs, hex, if_true, List.filter_cons, Bool.not_true,
        Bool.false_eq_true, if_false]
      exact ih seen
    · have hf : (!isExcluded src.exclude o a) = true := by simp [hex]
      simp only [expandPairs, hex, if_false, List.filter_cons, hf, if_true]
      by_cases hseen : (expandEntry src u1 u2 o a).1 ∈ seen
      · rw [if_pos hseen, if_pos hseen]
        exact ih seen
      · rw [if_neg hseen, if_neg hseen]
        rw [ih ((expandEntry src u1 u2 o a).1 :: seen)]
        simp only [Bool.false_eq_true, if_false]

theorem expandPairs_keys_nodup (src : Source) (u1 u2 : Bool)
    (pairs : List (String × String)) :
    ∀ seen : List ExpandedKey,
      ((expandPairs src u1 u2 pairs seen).map Prod.fst).Nodup ∧
      ∀ k ∈ (expandPairs src u1 u2 pairs seen).map Prod.fst, k ∉ seen := by
  induction pairs with
  | nil => intro seen; exact ⟨List.nodup_nil, by simp [expandPairs]⟩
  | cons p rest ih =>
    intro seen
    obtain ⟨o, a⟩ := p
    by_cases hex : isExcluded src.exclude o a = true
    · simp only [expandPairs, hex, if_true]
      exact ih seen
    · simp only [expandPairs, hex, Bool.false_eq_true, if_false]
      by_cases hseen : (expandEntry src u1 u2 o a).1 ∈ seen
      · rw [if_pos hseen]
        exact ih seen
      · rw [if_neg hseen]
        obtain ⟨hnd, hnotin⟩ := ih ((expandEntry src u1 u2 o a).1 :: seen)
        simp only [List.map_cons, List.nodup_cons]
        constructor
        · constructor
          · intro hmem
            exact (hnotin _ hmem) (List.mem_cons_self _ _)
          · exact hnd
        · intro k hk
          rcases List.mem_cons.mp hk with hk | hk
          · subst hk; exact hseen
          · intro hks
            exact (hnotin k hk) (List.mem_cons_of_mem _ hks)

theorem expandPairs_covers (src : Source) (u1 u2 : Bool)
    (pairs : List (String × String)) :
    ∀ (seen : List ExpandedKey) (o a : String), (o, a) ∈ pairs →
      ¬isExcluded src.exclude o a = true →
      (expandEntry src u1 u2 o a).1 ∈ seen ∨
      (expandEntry src u1 u2 o a).1 ∈ (expandPairs src u1 u2 pairs seen).map Prod.fst := by
  induction pairs with
  | nil => intro seen o a hmem; cases hmem
  | cons p rest ih =>
    intro seen o a hmem hex
    rcases List.mem_cons.mp hmem with hp | hp
    · subst hp
      simp only [expandPairs, hex, Bool.false_eq_true, if_false]
      by_cases hseen : (expandEntry src u1 u2 o a).1 ∈ seen
      · exact Or.inl hseen
      · rw [if_neg hseen]
        right
        simp only [List.map_cons]
        exact List.mem_cons_self _ _
    · obtain ⟨o2, a2⟩ := p
      by_cases hex2 : isExcluded src.exclude o2 a2 = true
      · simp only [expandPairs, hex2, if_true]
        exact ih seen o a hp hex
      · simp only [expandPairs, hex2, Bool.false_eq_true, if_false]
        by_cases hseen : (expandEntry src u1 u2 o2 a2).1 ∈ seen
        · rw [if_pos hseen]
          exact ih seen o a hp hex
        · rw [if_neg hseen]
          rcases ih ((expandEntry src u1 u2 o2 a2).1 :: seen) o a hp hex with hin | hin
          · rcases List.mem_cons.mp hin with hk | hk
            · right
              simp only [List.map_cons, hk]
              exact List.mem_cons_self _ _
            · exact Or.inl hk
          · right
            simp only [List.map_cons]
            exact List.mem_cons_of_mem _ hin

/-- C3 counterexample: with `arch_map` sending both `amd64` and `arm64` to
`x64` and the only parameter `\x7b\x7barch_map\x7d\x7d`, the two Arch values
substitute to the same mapped string `x64` with identical substituted
parameters, yet expansion emits two entries, not one: the dedup key uses
the iterated Arch value itself (`amd64` vs `arm64`), not the mapped
string. -/
theorem arch_map_same_string_not_collapsed :
    (expandSource ["linux"] ["amd64", "arm64"]
        ⟨"MappedApp", [("p", "\x7b\x7barch_map\x7d\x7d")], "", "", [], [],
          [("amd64", "x64"), ("arm64", "x64")], [], "", ""⟩).length = 2 ∧
    (expandSource ["linux"] ["amd64", "arm64"]
        ⟨"MappedApp", [("p", "\x7b\x7barch_map\x7d\x7d")], "", "", [], [],
          [("amd64", "x64"), ("arm64", "x64")], [], "", ""⟩).map
        (fun s => (getParam s.params "p", s.arch)) =
      [("x64", "amd64"), ("x64", "arm64")] := by
  constructor <;> decide

/-- C3 as amended: expansion deduplicates by the key
(OS, effective Arch, substituted parameters) — the emitted entries have
pairwise distinct keys, and every non-excluded pair of the iteration
product contributes its key — so two Arch values collapse to one entry
exactly when their keys coincide, which for distinct Arch values requires
an `arch_override` parameter making their effective Arch equal (as in the
concrete universal-binary source below, which collapses to one entry);
Arch values that merely map to the same `arch_map` string keep distinct
keys and are not collapsed. -/
theorem expansion_dedup_by_key
    (src : Source) (u1 u2 : Bool) (pairs : List (String × String)) (o a : String)
    (hmem : (o, a) ∈ pairs) (hex : ¬isExcluded src.exclude o a = true) :
    ((expandPairs src u1 u2 pairs []).map Prod.fst).Nodup ∧
    (expandEntry src u1 u2 o a).1 ∈ (expandPairs src u1 u2 pairs []).map Prod.fst ∧
    (expandSource ["linux"] ["amd64", "arm64"]
        ⟨"Uni", [("arch_override", "universal"), ("p", "static")],
          "", "", [], [], [], [], "", ""⟩).map (fun s => (s.name, s.arch)) =
      [("Uni [universal]", "universal")] := by
  refine ⟨(expandPairs_keys_nodup src u1 u2 pairs []).1, ?_, by decide⟩
  rcases expandPairs_covers src u1 u2 pairs [] o a hmem hex with hin | hin
  · cases hin
  · exact hin

/-- Witness for C3 (amended) at the pair (linux, amd64) of a concrete
two-pair product. -/
theorem expansion_dedup_by_key_witness :
    ((expandPairs ⟨"W", [("p", "\x7b\x7bos\x7d\x7d-\x7b\x7barch\x7d\x7d")], "", "", [], [], [], [], "", ""⟩
        true true [("linux", "amd64"), ("linux", "arm64")] []).map Prod.fst).Nodup ∧
    (expandEntry ⟨"W", [("p", "\x7b\x7bos\x7d\x7d-\x7b\x7barch\x7d\x7d")], "", "", [], [], [], [], "", ""⟩
        true true "linux" "amd64").1 ∈
      (expandPairs ⟨"W", [("p", "\x7b\x7bos\x7d\x7d-\x7b\x7barch\x7d\x7d")], "", "", [], [], [], [], "", ""⟩
        true true [("linux", "amd64"), ("linux", "arm64")] []).map Prod.fst ∧
    (expandSource ["linux"] ["amd64", "arm64"]
        ⟨"Uni", [("arch_override", "universal"), ("p", "static")],
          "", "", [], [], [], [], "", ""⟩).map (fun s => (s.name, s.arch)) =
      [("Uni [universal]", "universal")] :=
  expansion_dedup_by_key
    ⟨"W", [("p", "\x7b\x7bos\x7d\x7d-\x7b\x7barch\x7d\x7d")], "", "", [], [], [], [], "", ""⟩
    true true [("linux", "amd64"), ("linux", "arm64")] "linux" "amd64"
    (by decide) (by decide)

/-- C4 counterexample: for a template whose parameters reference the OS
dimension but not the Arch dimension, a bare Arch exclude token `arm64`
does not force Arch iteration (`needsArchIteration` stays false, because
the bare-token branch runs only when neither dimension is referenced), and
the expansion output is identical with and without the exclude entry — the
exclude rule is silently ignored rather than the (linux, arm64) pair being
skipped. -/
theorem bare_arch_exclude_ignored :
    needsIteration ⟨"A", [("p", "\x7b\x7bos\x7d\x7d")], "", "", ["arm64"], [], [], [], "", ""⟩ =
      (true, false) ∧
    (expandSource ["linux"] ["amd64", "arm64"]
        ⟨"A", [("p", "\x7b\x7bos\x7d\x7d")], "", "", ["arm64"], [], [], [], "", ""⟩).map
        (fun s => (s.name, s.params, s.os, s.arch)) =
      (expandSource ["linux"] ["amd64", "arm64"]
        ⟨"A", [("p", "\x7b\x7bos\x7d\x7d")], "", "", [], [], [], [], "", ""⟩).map
        (fun s => (s.name, s.params, s.os, s.arch)) ∧
    (expandSource ["linux"] ["amd64", "arm64"]
        ⟨"A", [("p", "\x7b\x7bos\x7d\x7d")], "", "", ["arm64"], [], [], [], "", ""⟩).map
        (fun s => s.arch) = [""] := by
  refine ⟨by decide, by decide, by decide⟩

/-- C4 as amended: an exclude entry containing "/" forces iteration over
both dimensions even when no parameter references them; a bare exclude
token forces iteration of its dimension (OS for the four OS names, Arch
otherwise) only when neither dimension is otherwise referenced; and the
excluded (OS, Arch) pairs of the iteration product are actually skipped:
expansion of the product equals expansion of the product with the excluded
pairs filtered out. -/
theorem exclude_dimension_iteration
    (src src2 : Source) (ex ex2 : String)
    (hmem : ex ∈ src.exclude) (hsl : strContains ex "/" = true)
    (hmem2 : ex2 ∈ src2.exclude) (hu : usesOSOf src2 = false)
    (ha : usesArchOf src2 = false) (hsl2 : ¬strContains ex2 "/" = true)
    (u1 u2 : Bool) (pairs : List (String × String)) (seen : List ExpandedKey) :
    ((needsIteration src).1 = true ∧ (needsIteration src).2 = true) ∧
    (((ex2 = "linux" ∨ ex2 = "macos" ∨ ex2 = "darwin" ∨ ex2 = "windows") →
        (needsIteration src2).1 = true) ∧
      (¬(ex2 = "linux" ∨ ex2 = "macos" ∨ ex2 = "darwin" ∨ ex2 = "windows") →
        (needsIteration src2).2 = true)) ∧
    expandPairs src u1 u2 pairs seen =
      expandPairs src u1 u2
        (pairs.filter (fun p => !isExcluded src.exclude p.1 p.2)) seen := by
  refine ⟨?_, ?_, expandPairs_skips_excluded src u1 u2 pairs seen⟩
  · exact needsFold_slash (usesOSOf src) (usesArchOf src) src.exclude
      (usesOSOf src, usesArchOf src) ex hmem hsl
  · have h := needsFold_bare src2.exclude (usesOSOf src2, usesArchOf src2) ex2 hmem2 hsl2
    rw [hu, ha] at h
    unfold needsIteration
    rw [hu, ha]
    exact h

/-- Witness for C4 (amended): a source excluding `windows/arm64` (forces
both dimensions), a dimension-free source excluding bare `arm64` (forces
Arch iteration), and a concrete two-pair product in which the excluded
pair is skipped. -/
theorem exclude_dimension_iteration_witness :
    ((needsIteration ⟨"J", [("p", "static")], "", "", ["windows/arm64"],
        [], [], [], "", ""⟩).1 = true ∧
      (needsIteration ⟨"J", [("p", "static")], "", "", ["windows/arm64"],
        [], [], [], "", ""⟩).2 = true) ∧
    ((("arm64" = "linux" ∨ "arm64" = "macos" ∨ "arm64" = "darwin" ∨
        "arm64" = "windows") →
        (needsIteration ⟨"B", [("p", "static")], "", "",
          ["arm64"], [], [], [], "", ""⟩).1 = true) ∧
      (¬("arm64" = "linux" ∨ "arm64" = "macos" ∨ "arm64" = "darwin" ∨
        "arm64" = "windows") →
        (needsIteration ⟨"B", [("p", "static")], "", "",
          ["arm64"], [], [], [], "", ""⟩).2 = true)) ∧
    expandPairs ⟨"J", [("p", "static")], "", "", ["windows/arm64"], [], [], [], "", ""⟩
        true true [("windows", "arm64"), ("linux", "amd64")] [] =
      expandPairs ⟨"J", [("p", "static")], "", "", ["windows/arm64"], [], [], [], "", ""⟩
        true true
        ([("windows", "arm64"), ("linux", "amd64")].filter
          (fun p => !isExcluded ["windows/arm64"] p.1 p.2)) [] :=
  exclude_dimension_iteration
    ⟨"J", [("p", "static")], "", "", ["windows/arm64"], [], [], [], "", ""⟩
    ⟨"B", [("p", "static")], "", "", ["arm64"], [], [], [], "", ""⟩
    "windows/arm64" "arm64" (by decide) (by decide) (by decide) (by decide)
    (by decide) (by decide) true true
    [("windows", "arm64"), ("linux", "amd64")] []

end Lamp

namespace Lamp

/-! ## The strategy resolver dispatch and the RSS/Atom feed strategy

The checker in `internal/core/checker.go` under `src/` predates the
repository's `rss_feed` strategy: its `CheckVersion` dispatches only
`web_scrape`, `fedora_coreos`, `kiwix_feed` and `github_release`, with a
default branch that falls back to the generic HTTP-header check when a
direct URL is configured and to an unsupported-strategy error otherwise.
The shipped checker additionally handles `rss_feed` — it is exercised by
`TestCheckRSSVersion` and documented in USAGE.md, but its body is not among
the provided sources, so it is modelled from the spec below. -/

/-- Go `VersionStatus` of `CheckResult`. -/
inductive VersionStatus where
  | upToDate
  | newer
  | notFound
  | checkError
  deriving Repr, DecidableEq

/-- Go `CheckResult{Status, Current, Latest, Message, ResolvedURL}`. -/
structure CheckResult where
  status : VersionStatus
  current : String
  latest : String
  message : String
  resolvedURL : String
  deriving Repr, DecidableEq

/-- One item of a fetched RSS feed: a title and a link. -/
structure RSSItem where
  title : String
  link : String
  deriving Repr, DecidableEq

/-- Modelled from the spec: the resolver for strategy `rss_feed`, whose
body is not under the provided sources (only `TestCheckRSSVersion` and the
USAGE.md strategy table reference it) — "fetch a feed, find the first item
whose title matches an item pattern, extract a version substring via a
second pattern, compare against local evidence".  Pattern matching and
substring extraction are abstracted as the oracles `matchPat` (does a
string match the item pattern?) and `extractPat` (the version substring
the version pattern captures, if any); `fetchFeed` is the feed the GET
returns (`none` on network/parse failure); `localFiles` are the names in
the destination directory (the local evidence).  Per the spec's comparison
rules and the test's expectations, the first local file matching the item
pattern carries the current version; no local match is NotFound, an equal
version is UpToDate, a differing remote version is Newer. -/
def resolveRSSFeed (matchPat : String → String → Bool)
    (extractPat : String → String → Option String)
    (fetchFeed : String → Option (List RSSItem))
    (localFiles : List String) (src : Source) : CheckResult :=
  let feedURL := getParam src.params "feed_url"
  let itemPat := getParam src.params "item_pattern"
  let verPat := getParam src.params "version_pattern"
  if feedURL = "" ∨ itemPat = "" then
    ⟨.checkError, "", "", "Missing feed_url or item_pattern params", ""⟩
  else
    match fetchFeed feedURL with
    | none => ⟨.checkError, "", "", "Failed to fetch or parse feed", ""⟩
    | some items =>
      match items.find? (fun it => matchPat itemPat it.title) with
      | none => ⟨.checkError, "", "", "No feed item matches item_pattern", ""⟩
      | some it =>
        match extractPat verPat it.title with
        | none => ⟨.checkError, "", "", "No version found in item title", ""⟩
        | some latest =>
          match (localFiles.find? (fun f => matchPat itemPat f)).bind
              (extractPat verPat) with
          | none => ⟨.notFound, "", latest, "", it.link⟩
          | some current =>
            if current = latest then
              ⟨.upToDate, current, latest, "", it.link⟩
            else
              ⟨.newer, current, latest, "", it.link⟩

/-- Modelled from the spec: the shipped checker's `CheckVersion` strategy
dispatch including the `rss_feed` tag (the `src/` copy of `CheckVersion`
lacks it).  The four resolvers present under `src/` are abstracted as
`other`; the default branch mirrors the `src/` code: generic HTTP-header
check when a direct URL is configured, unsupported-strategy error
otherwise. -/
def checkVersion (matchPat : String → String → Bool)
    (extractPat : String → String → Option String)
    (fetchFeed : String → Option (List RSSItem))
    (localFiles : List String)
    (other : String → Source → CheckResult)
    (headerCheck : String → CheckResult) (src : Source) : CheckResult :=
  match src.strategy with
  | "web_scrape" => other "web_scrape" src
  | "fedora_coreos" => other "fedora_coreos" src
  | "kiwix_feed" => other "kiwix_feed" src
  | "github_release" => other "github_release" src
  | "rss_feed" => resolveRSSFeed matchPat extractPat fetchFeed localFiles src
  | _ =>
    if src.url ≠ "" then headerCheck src.url
    else ⟨.checkError, "", "", "No strategy or URL provided", ""⟩

end Lamp

namespace Lamp

/-- C1: for every source whose strategy tag is `rss_feed` (with the
feed_url and item_pattern parameters configured), `CheckVersion` dispatches
to the RSS/Atom feed resolver — not to the generic HTTP-header fallback and
not to the unsupported-strategy error — and the resolver fetches the feed,
takes the first item whose title matches the item pattern, extracts the
version substring from its title via the version pattern, and returns the
CheckResult obtained by comparing that version against the local evidence:
NotFound with the resolved link when no local file matches the item
pattern, UpToDate when the local version equals it, Newer otherwise. -/
theorem rss_feed_strategy_resolves
    (mp : String → String → Bool) (ep : String → String → Option String)
    (ff : String → Option (List RSSItem)) (lf : List String)
    (other : String → Source → CheckResult) (hc : String → CheckResult)
    (src : Source) (items : List RSSItem) (it : RSSItem) (latest : String)
    (hstrat : src.strategy = "rss_feed")
    (hfeed : getParam src.params "feed_url" ≠ "")
    (hitem : getParam src.params "item_pattern" ≠ "")
    (hfetch : ff (getParam src.params "feed_url") = some items)
    (hfind : items.find?
      (fun i => mp (getParam src.params "item_pattern") i.title) = some it)
    (hex : ep (getParam src.params "version_pattern") it.title = some latest) :
    checkVersion mp ep ff lf other hc src = resolveRSSFeed mp ep ff lf src ∧
    resolveRSSFeed mp ep ff lf src =
      (match (lf.find? (fun f => mp (getParam src.params "item_pattern") f)).bind
          (ep (getParam src.params "version_pattern")) with
       | none => ⟨.notFound, "", latest, "", it.link⟩
       | some current =>
         if current = latest then ⟨.upToDate, current, latest, "", it.link⟩
         else ⟨.newer, current, latest, "", it.link⟩) := by
  constructor
  · unfold checkVersion
    rw [hstrat]
    rfl
  · unfold resolveRSSFeed
    have hguard : ¬(getParam src.params "feed_url" = "" ∨
        getParam src.params "item_pattern" = "") := by
      push_neg
      exact ⟨hfeed, hitem⟩
    rw [if_neg hguard, hfetch]
    dsimp only
    rw [hfind]
    dsimp only
    rw [hex]

end Lamp

namespace Lamp

/-- The concrete item-pattern matcher for the witness (the titles used all
match `kiwix-desktop_x86_64_.*\.appimage`). -/
def rssWitnessMatch (pat s : String) : Bool :=
  strContains s "kiwix-desktop_x86_64_" && strContains s ".appimage"

/-- The concrete version extractor for the witness (what the capture group
`(\d+\.\d+\.\d+)` yields on the two names involved). -/
def rssWitnessExtract (pat s : String) : Option String :=
  if s = "kiwix-desktop_x86_64_2.4.1.appimage" then some "2.4.1"
  else if s = "kiwix-desktop_x86_64_2.4.0.appimage" then some "2.4.0"
  else none

/-- The concrete feed for the witness: one item, version 2.4.1 (the
scenario of `TestCheckRSSVersion`). -/
def rssWitnessFeed (u : String) : Option (List RSSItem) :=
  if u = "https://example.com/feed.xml" then
    some [⟨"kiwix-desktop_x86_64_2.4.1.appimage",
      "https://example.com/kiwix-desktop_x86_64_2.4.1.appimage"⟩]
  else none

/-- The witness source: strategy `rss_feed` with the test's parameters. -/
def rssWitnessSrc : Source :=
  { name := "RSS Test",
    params := [("feed_url", "https://example.com/feed.xml"),
      ("item_pattern", "kiwix-desktop_x86_64_.*\\.appimage"),
      ("version_pattern", "(\\d+\\.\\d+\\.\\d+)")],
    os := "", arch := "", exclude := [], osMap := [], archMap := [],
    extMap := [], strategy := "rss_feed", url := "" }

/-- Witness for C1 in the scenario of `TestCheckRSSVersion`: local file at
version 2.4.0, feed item at 2.4.1 — dispatch reaches the feed resolver and
the comparison yields Newer with latest 2.4.1. -/
theorem rss_feed_strategy_resolves_witness :
    checkVersion rssWitnessMatch rssWitnessExtract rssWitnessFeed
        ["kiwix-desktop_x86_64_2.4.0.appimage"]
        (fun _ _ => ⟨.checkError, "", "", "", ""⟩)
        (fun _ => ⟨.checkError, "", "", "", ""⟩) rssWitnessSrc =
      resolveRSSFeed rssWitnessMatch rssWitnessExtract rssWitnessFeed
        ["kiwix-desktop_x86_64_2.4.0.appimage"] rssWitnessSrc ∧
    resolveRSSFeed rssWitnessMatch rssWitnessExtract rssWitnessFeed
        ["kiwix-desktop_x86_64_2.4.0.appimage"] rssWitnessSrc =
      ⟨.newer, "2.4.0", "2.4.1",
        "", "https://example.com/kiwix-desktop_x86_64_2.4.1.appimage"⟩ := by
  have h := rss_feed_strategy_resolves rssWitnessMatch rssWitnessExtract
    rssWitnessFeed ["kiwix-desktop_x86_64_2.4.0.appimage"]
    (fun _ _ => ⟨.checkError, "", "", "", ""⟩)
    (fun _ => ⟨.checkError, "", "", "", ""⟩) rssWitnessSrc
    [⟨"kiwix-desktop_x86_64_2.4.1.appimage",
      "https://example.com/kiwix-desktop_x86_64_2.4.1.appimage"⟩]
    ⟨"kiwix-desktop_x86_64_2.4.1.appimage",
      "https://example.com/kiwix-desktop_x86_64_2.4.1.appimage"⟩
    "2.4.1" rfl (by decide) (by decide) (by decide) (by decide) (by decide)
  exact ⟨h.1, by rw [h.2]; decide⟩

end Lamp

namespace Lamp

/-! ## `internal/downloader` — `VerifyFile` and the hash algorithms

`VerifyFile` streams the file through `crypto/md5`, `crypto/sha1` or
`crypto/sha256`.  Those library functions are embedded below from their
standards (RFC 1321, RFC 3174, FIPS 180-4), over bytes as `Nat` with all
word arithmetic taken modulo 2^32. -/

def m32 : Nat := 4294967296

def add32 (a b : Nat) : Nat := (a + b) % m32

def rotl32 (x n : Nat) : Nat := ((x <<< n) ||| (x >>> (32 - n))) % m32

def rotr32 (x n : Nat) : Nat := ((x >>> n) ||| (x <<< (32 - n))) % m32

def not32 (x : Nat) : Nat := 4294967295 ^^^ x

/-- Split into chunks of `k` (fuelled by the list length). -/
def chunksOf (k : Nat) : Nat → List Nat → List (List Nat)
  | 0, _ => []
  | _ + 1, [] => []
  | fuel + 1, l => l.take k :: chunksOf k fuel (l.drop k)

def beWord (b : List Nat) : Nat := b.foldl (fun acc x => acc * 256 + x) 0

def leWord (b : List Nat) : Nat := b.reverse.foldl (fun acc x => acc * 256 + x) 0

def beBytes4 (w : Nat) : List Nat :=
  [(w >>> 24) % 256, (w >>> 16) % 256, (w >>> 8) % 256, w % 256]

def leBytes4 (w : Nat) : List Nat :=
  [w % 256, (w >>> 8) % 256, (w >>> 16) % 256, (w >>> 24) % 256]

def beBytes8 (n : Nat) : List Nat :=
  [(n >>> 56) % 256, (n >>> 48) % 256, (n >>> 40) % 256, (n >>> 32) % 256,
   (n >>> 24) % 256, (n >>> 16) % 256, (n >>> 8) % 256, n % 256]

def leBytes8 (n : Nat) : List Nat := (beBytes8 n).reverse

/-- Merkle–Damgård padding: append 0x80, zeros to 56 mod 64, then the
64-bit bit length (big- or little-endian per `be`). -/
def padMsg (be : Bool) (msg : List Nat) : List Nat :=
  let len := msg.length
  let zeros := (119 - len % 64) % 64
  msg ++ 128 :: List.replicate zeros 0 ++
    (if be then beBytes8 (8 * len) else leBytes8 (8 * len))

def iterateN (f : α → α) : Nat → α → α
  | 0, a => a
  | k + 1, a => iterateN f k (f a)

def sha256K : List Nat :=
  [1116352408, 1899447441, 3049323471, 3921009573, 961987163, 1508970993,
   2453635748, 2870763221, 3624381080, 310598401, 607225278, 1426881987,
   1925078388, 2162078206, 2614888103, 3248222580, 3835390401, 4022224774,
   264347078, 604807628, 770255983, 1249150122, 1555081692, 1996064986,
   2554220882, 2821834349, 2952996808, 3210313671, 3336571891, 3584528711,
   113926993, 338241895, 666307205, 773529912, 1294757372, 1396182291,
   1695183700, 1986661051, 2177026350, 2456956037, 2730485921, 2820302411,
   3259730800, 3345764771, 3516065817, 3600352804, 4094571909, 275423344,
   430227734, 506948616, 659060556, 883997877, 958139571, 1322822218,
   1537002063, 1747873779, 1955562222, 2024104815, 2227730452, 2361852424,
   2428436474, 2756734187, 3204031479, 3329325298]

def sha256H0 : List Nat :=
  [1779033703, 3144134277, 1013904242, 2773480762, 1359893119, 2600822924,
   528734635, 1541459225]

def sha256ExtendStep (w : List Nat) : List Nat :=
  let n := w.length
  let s0 := (rotr32 (w.getD (n - 15) 0) 7) ^^^ (rotr32 (w.getD (n - 15) 0) 18) ^^^
    ((w.getD (n - 15) 0) >>> 3)
  let s1 := (rotr32 (w.getD (n - 2) 0) 17) ^^^ (rotr32 (w.getD (n - 2) 0) 19) ^^^
    ((w.getD (n - 2) 0) >>> 10)
  w ++ [(w.getD (n - 16) 0 + s0 + w.getD (n - 7) 0 + s1) % m32]

def sha256Round (st : List Nat) (kw : Nat × Nat) : List Nat :=
  match st with
  | [a, b, c, d, e, f, g, h] =>
    let s1 := (rotr32 e 6) ^^^ (rotr32 e 11) ^^^ (rotr32 e 25)
    let ch := (e &&& f) ^^^ ((not32 e) &&& g)
    let t1 := (h + s1 + ch + kw.1 + kw.2) % m32
    let s0 := (rotr32 a 2) ^^^ (rotr32 a 13) ^^^ (rotr32 a 22)
    let mj := (a &&& b) ^^^ (a &&& c) ^^^ (b &&& c)
    let t2 := (s0 + mj) % m32
    [(t1 + t2) % m32, a, b, c, (d + t1) % m32, e, f, g]
  | _ => st

def sha256Block (hs : List Nat) (block : List Nat) : List Nat :=
  let w16 := (chunksOf 4 block.length block).map beWord
  let w := iterateN sha256ExtendStep 48 w16
  let st := (sha256K.zip w).foldl sha256Round hs
  List.zipWith add32 hs st

def sha256 (msg : List Nat) : List Nat :=
  let padded := padMsg true msg
  let hs := (chunksOf 64 padded.length padded).foldl sha256Block sha256H0
  hs.flatMap beBytes4

def sha1H0 : List Nat :=
  [1732584193, 4023233417, 2562383102, 271733878, 3285377520]

def sha1ExtendStep (w : List Nat) : List Nat :=
  let n := w.length
  w ++ [rotl32 ((w.getD (n - 3) 0) ^^^ (w.getD (n - 8) 0) ^^^
    (w.getD (n - 14) 0) ^^^ (w.getD (n - 16) 0)) 1]

def sha1Round (st : List Nat) (iw : Nat × Nat) : List Nat :=
  match st with
  | [a, b, c, d, e] =>
    let i := iw.1
    let f :=
      if i < 20 then (b &&& c) ||| ((not32 b) &&& d)
      else if i < 40 then b ^^^ c ^^^ d
      else if i < 60 then (b &&& c) ||| (b &&& d) ||| (c &&& d)
      else b ^^^ c ^^^ d
    let k :=
      if i < 20 then 1518500249
      else if i < 40 then 1859775393
      else if i < 60 then 2400959708
      else 3395469782
    let temp := (rotl32 a 5 + f + e + k + iw.2) % m32
    [temp, a, rotl32 b 30, c, d]
  | _ => st

def sha1Block (hs : List Nat) (block : List Nat) : List Nat :=
  let w16 := (chunksOf 4 block.length block).map beWord
  let w := iterateN sha1ExtendStep 64 w16
  let st := w.enum.foldl sha1Round hs
  List.zipWith add32 hs st

def sha1 (msg : List Nat) : List Nat :=
  let padded := padMsg true msg
  let hs := (chunksOf 64 padded.length padded).foldl sha1Block sha1H0
  hs.flatMap beBytes4

def md5K : List Nat :=
  [3614090360, 3905402710, 606105819, 3250441966, 4118548399, 1200080426,
   2821735955, 4249261313, 1770035416, 2336552879, 4294925233, 2304563134,
   1804603682, 4254626195, 2792965006, 1236535329, 4129170786, 3225465664,
   643717713, 3921069994, 3593408605, 38016083, 3634488961, 3889429448,
   568446438, 3275163606, 4107603335, 1163531501, 2850285829, 4243563512,
   1735328473, 2368359562, 4294588738, 2272392833, 1839030562, 4259657740,
   2763975236, 1272893353, 4139469664, 3200236656, 681279174, 3936430074,
   3572445317, 76029189, 3654602809, 3873151461, 530742520, 3299628645,
   4096336452, 1126891415, 2878612391, 4237533241, 1700485571, 2399980690,
   4293915773, 2240044497, 1873313359, 4264355552, 2734768916, 1309151649,
   4149444226, 3174756917, 718787259, 3951481745]

def md5S : List Nat :=
  [7, 12, 17, 22, 7, 12, 17, 22, 7, 12, 17, 22, 7, 12, 17, 22,
   5, 9, 14, 20, 5, 9, 14, 20, 5, 9, 14, 20, 5, 9, 14, 20,
   4, 11, 16, 23, 4, 11, 16, 23, 4, 11, 16, 23, 4, 11, 16, 23,
   6, 10, 15, 21, 6, 10, 15, 21, 6, 10, 15, 21, 6, 10, 15, 21]

def md5Round (ws : List Nat) (st : List Nat) (i : Nat) : List Nat :=
  match st with
  | [a, b, c, d] =>
    let f :=
      if i < 16 then (b &&& c) ||| ((not32 b) &&& d)
      else if i < 32 then (d &&& b) ||| ((not32 d) &&& c)
      else if i < 48 then b ^^^ c ^^^ d
      else c ^^^ (b ||| (not32 d))
    let g :=
      if i < 16 then i
      else if i < 32 then (5 * i + 1) % 16
      else if i < 48 then (3 * i + 5) % 16
      else (7 * i) % 16
    let f2 := (f + a + md5K.getD i 0 + ws.getD g 0) % m32
    [d, (b + rotl32 f2 (md5S.getD i 0)) % m32, b, c]
  | _ => st

def md5Block (hs : List Nat) (block : List Nat) : List Nat :=
  let ws := (chunksOf 4 block.length block).map leWord
  let st := (List.range 64).foldl (md5Round ws) hs
  List.zipWith add32 hs st

def md5 (msg : List Nat) : List Nat :=
  let padded := padMsg false msg
  let hs := (chunksOf 64 padded.length padded).foldl md5Block
    [1732584193, 4023233417, 2562383102, 271733878]
  hs.flatMap leBytes4

/-- Go `hex.EncodeToString` (lowercase). -/
def hexDigitChar (n : Nat) : Char :=
  if n < 10 then Char.ofNat (48 + n) else Char.ofNat (87 + n)

def hexEncode (bs : List Nat) : String :=
  ⟨bs.flatMap (fun b => [hexDigitChar (b / 16), hexDigitChar (b % 16)])⟩

/-- The bytes of an ASCII string. -/
def strBytes (s : String) : List Nat := s.data.map Char.toNat

/-- Go `strings.ToLower` restricted to ASCII (all inputs involved are
ASCII). -/
def toLowerAscii (s : String) : String :=
  ⟨s.data.map (fun c =>
    if 'A' ≤ c ∧ c ≤ 'Z' then Char.ofNat (c.toNat + 32) else c)⟩

/-- Go `strings.EqualFold` restricted to ASCII (hex digests and algorithm
names are ASCII, where Unicode simple folding coincides with ASCII case
folding). -/
def eqFoldAscii (a b : String) : Bool :=
  toLowerAscii a = toLowerAscii b

/-- Go `strings.Index(s, ":")` (single-rune separator): index of the first
occurrence, if any. -/
def firstIdxOf (c : Char) : List Char → Option Nat
  | [] => none
  | a :: as => if a = c then some 0 else (firstIdxOf c as).map (· + 1)

/-- The outcomes of `VerifyFile` (distinct Go error values). -/
inductive VerifyResult where
  | ok
  | openError
  | unsupportedAlgo (algo : String)
  | mismatch (expected calculated : String)
  deriving Repr, DecidableEq

/-- Go `VerifyFile(path, expectedChecksum)` with the file contents explicit
(`none` models a failed `os.Open`): empty checksum skips verification;
an `algo:hex` prefix selects the algorithm; a bare digest guesses from its
length (32 bytes means MD5, 40 means SHA-1, the default stays SHA-256);
the computed digest is hex-encoded and compared case-insensitively. -/
def VerifyFile (content : Option (List Nat)) (expectedChecksum : String) : VerifyResult :=
  if expectedChecksum = "" then .ok
  else
    match content with
    | none => .openError
    | some bytes =>
      let split := match firstIdxOf ':' expectedChecksum.data with
        | some i =>
          (String.mk (expectedChecksum.data.take i),
           String.mk (expectedChecksum.data.drop (i + 1)))
        | none =>
          let l := expectedChecksum.length
          (if l = 32 then "md5" else if l = 40 then "sha1" else "sha256",
           expectedChecksum)
      let algo := split.1
      let hashStr := split.2
      let hasher : Option (List Nat → List Nat) :=
        match toLowerAscii algo with
        | "md5" => some md5
        | "sha1" => some sha1
        | "sha256" => some sha256
        | _ => none
      match hasher with
      | none => .unsupportedAlgo algo
      | some hashFn =>
        let calculated := hexEncode (hashFn bytes)
        if eqFoldAscii calculated hashStr then .ok
        else .mismatch hashStr calculated

end Lamp

namespace Lamp

set_option maxRecDepth 10000

/-- C8: the verifier contract on the content "hello world": an empty
digest spec skips verification and succeeds for any file; the content
validates against its precomputed SHA-256, MD5 and SHA-1 digests both in
explicit `algo:hex` form and in bare form (the algorithm inferred from the
hex length: 32 means MD5, 40 means SHA-1, otherwise SHA-256); the
comparison is case-insensitive (the upper-cased SHA-256 digest also
validates); and an all-zero digest of matching length yields a mismatch
error whose computed-digest component shows the length-inferred algorithm
was used. -/
theorem verify_file_hello_world :
    (∀ c : Option (List Nat), VerifyFile c "" = .ok) ∧
    VerifyFile (some (strBytes "hello world"))
      "sha256:b94d27b9934d3e08a52e52d7da7dabfac484efe37a5380ee9088f7ace2efcde9" = .ok ∧
    VerifyFile (some (strBytes "hello world"))
      "b94d27b9934d3e08a52e52d7da7dabfac484efe37a5380ee9088f7ace2efcde9" = .ok ∧
    VerifyFile (some (strBytes "hello world"))
      "md5:5eb63bbbe01eeed093cb22bb8f5acdc3" = .ok ∧
    VerifyFile (some (strBytes "hello world"))
      "5eb63bbbe01eeed093cb22bb8f5acdc3" = .ok ∧
    VerifyFile (some (strBytes "hello world"))
      "sha1:2aae6c35c94fcfb415dbe95f408b9ce91ee846ed" = .ok ∧
    VerifyFile (some (strBytes "hello world"))
      "2aae6c35c94fcfb415dbe95f408b9ce91ee846ed" = .ok ∧
    VerifyFile (some (strBytes "hello world"))
      "B94D27B9934D3E08A52E52D7DA7DABFAC484EFE37A5380EE9088F7ACE2EFCDE9" = .ok ∧
    VerifyFile (some (strBytes "hello world")) "0000000000000000000000000000000000000000000000000000000000000000" =
      .mismatch "0000000000000000000000000000000000000000000000000000000000000000"
        "b94d27b9934d3e08a52e52d7da7dabfac484efe37a5380ee9088f7ace2efcde9" ∧
    VerifyFile (some (strBytes "hello world")) "00000000000000000000000000000000" =
      .mismatch "00000000000000000000000000000000" "5eb63bbbe01eeed093cb22bb8f5acdc3" ∧
    VerifyFile (some (strBytes "hello world")) "0000000000000000000000000000000000000000" =
      .mismatch "0000000000000000000000000000000000000000" "2aae6c35c94fcfb415dbe95f408b9ce91ee846ed" := by
  refine ⟨fun c => rfl, ?_, ?_, ?_, ?_, ?_, ?_, ?_, ?_, ?_, ?_⟩ <;> decide

end Lamp
